import Mathlib

/-!
Verification of the `sevenzip-mt` 7z archive writer against its design
specification. The Rust sources are shallowly embedded: machine integers
become `Nat` with explicit truncation (`% 256`, clamping at `2^32 - 1`)
where the source truncates or clamps; byte buffers become `List Nat`;
fallible functions return `Except SevenZipError`; the slice-chunking
panic of `chunks(0)` is modelled by `Option`. The external LZMA2 encoder
(crate `lzma_rust2`) and the CRC-32 routine (crate `crc32fast`) are
black boxes for the design and are passed as explicit function
parameters to the embedded pipeline.
-/

namespace SevenZipMT

/-- Error taxonomy of `src/error.rs` (`enum SevenZipError`). -/
inductive SevenZipError where
  | Io : String → SevenZipError
  | FileNotFound : String → SevenZipError
  | Compression : String → SevenZipError
  | InvalidState : String → SevenZipError
  | HeaderError : String → SevenZipError
  | AlreadyFinalized : SevenZipError
  | Threading : String → SevenZipError
deriving DecidableEq, Repr

/-- Value of `u32::MAX`. -/
def u32max : Nat := 2 ^ 32 - 1

/-- Embedding of `decode_dict_size` (src/compression/lzma2.rs, lines 80-92).
The argument is a `u8` property value; the result is a `u32` dictionary
size. The shift is computed in `u64` (never overflows for `prop ≤ 255`)
and clamped to `u32::MAX` exactly as in the source. -/
def decode_dict_size (prop : Nat) : Nat :=
  if prop > 40 then u32max
  else
    let mantissa := 2 ||| (prop &&& 1)
    let exponent := prop / 2 + 11
    let size := mantissa <<< exponent
    if size > u32max then u32max else size

/-- Embedding of the search loop `for prop in 1u8..=40 { ... }` inside
`encode_properties_byte` (src/compression/lzma2.rs, lines 71-77): the
first `prop` whose decoded size reaches `dict_size` is returned, and the
fall-through value is 40. -/
def encodeLoop (dict_size : Nat) (prop : Nat) : Nat :=
  if prop > 40 then 40
  else if decode_dict_size prop ≥ dict_size then prop
  else encodeLoop dict_size (prop + 1)
termination_by 41 - prop

/-- Embedding of `encode_properties_byte` (src/compression/lzma2.rs,
lines 66-78). -/
def encode_properties_byte (dict_size : Nat) : Nat :=
  if dict_size ≤ 4096 then 0 else encodeLoop dict_size 1

theorem encodeLoop_le_40 (dict_size prop : Nat) : encodeLoop dict_size prop ≤ 40 := by
  rw [encodeLoop]
  split
  · omega
  · split
    · omega
    · exact encodeLoop_le_40 dict_size (prop + 1)
termination_by 41 - prop

theorem encodeLoop_ge (dict_size prop : Nat) (hd : dict_size ≤ u32max) :
    dict_size ≤ decode_dict_size (encodeLoop dict_size prop) := by
  rw [encodeLoop]
  split
  · have : decode_dict_size 40 = u32max := by decide
    omega
  · split
    · omega
    · exact encodeLoop_ge dict_size (prop + 1) hd
termination_by 41 - prop

theorem encodeLoop_min (dict_size prop q : Nat) (hpq : prop ≤ q)
    (hq : q < encodeLoop dict_size prop) : decode_dict_size q < dict_size := by
  rw [encodeLoop] at hq
  split at hq
  · omega
  · split at hq
    · omega
    · rcases Nat.eq_or_lt_of_le hpq with h | h
      · subst h; omega
      · exact encodeLoop_min dict_size (prop + 1) q h hq
termination_by 41 - prop

theorem decode_lt_decode (a b : Nat) (h : a < b) (hb : b ≤ 40) :
    decode_dict_size a < decode_dict_size b := by
  induction b with
  | zero => omega
  | succ n ih =>
    have step : ∀ p : Nat, p < 40 → decode_dict_size p < decode_dict_size (p + 1) := by decide
    rcases Nat.lt_succ_iff_lt_or_eq.mp h with h1 | h1
    · exact lt_trans (ih h1 (by omega)) (step n (by omega))
    · subst h1; exact step a (by omega)

theorem encode_le_40 (d : Nat) : encode_properties_byte d ≤ 40 := by
  rw [encode_properties_byte]
  split
  · omega
  · exact encodeLoop_le_40 d 1

theorem encode_ge (d : Nat) (hd : d ≤ u32max) :
    d ≤ decode_dict_size (encode_properties_byte d) := by
  rw [encode_properties_byte]
  split
  · have : decode_dict_size 0 = 4096 := by decide
    omega
  · exact encodeLoop_ge d 1 hd

theorem encode_min (d q : Nat) (hq : q < encode_properties_byte d) :
    decode_dict_size q < d := by
  rw [encode_properties_byte] at hq
  split at hq
  · omega
  · rcases Nat.eq_zero_or_pos q with h0 | h1
    · subst h0
      have : decode_dict_size 0 = 4096 := by decide
      omega
    · exact encodeLoop_min d 1 q h1 hq

theorem encode_decode (p : Nat) (hp : p ≤ 40) :
    encode_properties_byte (decode_dict_size p) = p := by
  rcases Nat.eq_zero_or_pos p with h0 | h1
  · subst h0; rfl
  · have hd0 : decode_dict_size 0 = 4096 := by decide
    have hgt : 4096 < decode_dict_size p := hd0 ▸ decode_lt_decode 0 p h1 hp
    have hle : ∀ r : Nat, r ≤ 40 → decode_dict_size r ≤ u32max := by decide
    have hr40 : encode_properties_byte (decode_dict_size p) ≤ 40 :=
      encode_le_40 (decode_dict_size p)
    have hrge : decode_dict_size p ≤
        decode_dict_size (encode_properties_byte (decode_dict_size p)) :=
      encode_ge (decode_dict_size p) (hle p hp)
    by_contra hne
    rcases Nat.lt_or_ge (encode_properties_byte (decode_dict_size p)) p with hlt | hge
    · exact absurd hrge (Nat.not_le.2 (decode_lt_decode _ p hlt hp))
    · have hplt : p < encode_properties_byte (decode_dict_size p) := by omega
      exact absurd (encode_min (decode_dict_size p) p hplt) (by omega)

/-- C4 counterexample: the code clamps the decoded dictionary size at
`u32::MAX = 2^32 - 1`, so `decode_dict_size 40 = 4294967295`, not the
4 GiB (`2^32`) stated by the claim. -/
theorem c4_counterexample :
    decode_dict_size 40 = 4294967295 ∧ decode_dict_size 40 ≠ 4294967296 := by
  decide

/-- C4 (amended): for every property byte `p ≤ 40`, the decoded
dictionary size equals `(2 ||| (p &&& 1)) <<< (p / 2 + 11)` saturated at
`2^32 - 1` (`u32::MAX`); in particular `decoded 0 = 4096`,
`decoded 22 = 8 MiB`, and `decoded 40 = 2^32 - 1`. -/
theorem c4_decode_dict_size (p : Nat) (hp : p ≤ 40) :
    decode_dict_size p = min ((2 ||| (p &&& 1)) <<< (p / 2 + 11)) (2 ^ 32 - 1) ∧
    decode_dict_size 0 = 4096 ∧
    decode_dict_size 22 = 8388608 ∧
    decode_dict_size 40 = 2 ^ 32 - 1 := by
  refine ⟨?_, by decide, by decide, by decide⟩
  revert p hp
  decide

/-- C4 witness: the amended statement instantiated at `p = 40`. -/
theorem c4_witness :
    40 ≤ 40 ∧
    (decode_dict_size 40 = min ((2 ||| (40 &&& 1)) <<< (40 / 2 + 11)) (2 ^ 32 - 1) ∧
     decode_dict_size 0 = 4096 ∧
     decode_dict_size 22 = 8388608 ∧
     decode_dict_size 40 = 2 ^ 32 - 1) :=
  ⟨by decide, c4_decode_dict_size 40 (by decide)⟩

/-- C5: for every `u32` dictionary size `d`, `encode_properties_byte d`
is the smallest property byte whose decoded size reaches `d`, it never
exceeds 40, inputs `d ≤ 4096` give 0, and encoding is a left inverse of
decoding on `[0, 40]`. -/
theorem c5_properties_byte_least (d : Nat) (hd : d < 2 ^ 32) :
    (∀ p, p ≤ 40 → encode_properties_byte (decode_dict_size p) = p) ∧
    encode_properties_byte d ≤ 40 ∧
    d ≤ decode_dict_size (encode_properties_byte d) ∧
    (∀ q, q < encode_properties_byte d → decode_dict_size q < d) ∧
    (d ≤ 4096 → encode_properties_byte d = 0) := by
  refine ⟨encode_decode, encode_le_40 d, encode_ge d (by simp [u32max]; omega),
    fun q hq => encode_min d q hq, fun h4 => ?_⟩
  rw [encode_properties_byte, if_pos h4]

/-- C5 witness: the statement instantiated at `d = 8388608` (8 MiB). -/
theorem c5_witness :
    8388608 < 2 ^ 32 ∧
    ((∀ p, p ≤ 40 → encode_properties_byte (decode_dict_size p) = p) ∧
     encode_properties_byte 8388608 ≤ 40 ∧
     8388608 ≤ decode_dict_size (encode_properties_byte 8388608) ∧
     (∀ q, q < encode_properties_byte 8388608 → decode_dict_size q < 8388608) ∧
     (8388608 ≤ 4096 → encode_properties_byte 8388608 = 0)) :=
  ⟨by norm_num, c5_properties_byte_least 8388608 (by norm_num)⟩

/-- Little-endian byte serialization: `count` bytes of `value`, least
significant first. This models both the tail loop
`for i in 0..byte_count { write_u8((value >> (i * 8)) as u8) }` and
`write_u64::<LittleEndian>` of src/io/writer.rs. -/
def leBytes (count : Nat) (value : Nat) : List Nat :=
  (List.range count).map (fun i => (value >>> (i * 8)) % 256)

/-- Embedding of the byte-count search loop of `write_number`
(src/io/writer.rs, lines 22-34): starting from `byte_count = 1`, while
`byte_count < 8`, stop at the first count whose
`max_value = (max_first_byte << (byte_count * 8)) | (2^(byte_count*8) - 1)`
reaches `value`. -/
def findByteCount (value : Nat) (byte_count : Nat) : Nat :=
  if byte_count < 8 then
    let bits_available := 8 - (byte_count + 1)
    let max_first_byte := (1 <<< bits_available) - 1
    let max_value := (max_first_byte <<< (byte_count * 8)) ||| ((1 <<< (byte_count * 8)) - 1)
    if value ≤ max_value then byte_count
    else findByteCount value (byte_count + 1)
  else byte_count
termination_by 8 - byte_count

/-- Embedding of `write_number` (src/io/writer.rs, lines 15-57),
returning the emitted bytes. `as u8` truncations become `% 256`; the
first-byte mask `!((0xFFu16 >> byte_count) as u8)` becomes
`255 ^^^ (255 >>> byte_count)`. -/
def write_number (value : Nat) : List Nat :=
  if value < 0x80 then [value % 256]
  else
    let byte_count := findByteCount value 1
    if byte_count ≥ 8 then 0xFF :: leBytes 8 value
    else
      let mask := 255 ^^^ ((255 >>> byte_count) % 256)
      let first_byte := mask ||| ((value >>> (byte_count * 8)) % 256)
      first_byte :: leBytes byte_count value

theorem fbc1 (v : Nat) : findByteCount v 1 = if v ≤ 16383 then 1 else findByteCount v 2 := by
  rw [findByteCount]
  norm_num
  rw [show ((1:Nat) <<< 6 - 1) <<< 8 ||| 1 <<< 8 - 1 = 16383 from by decide]

theorem fbc2 (v : Nat) : findByteCount v 2 = if v ≤ 2097151 then 2 else findByteCount v 3 := by
  rw [findByteCount]
  norm_num
  rw [show ((1:Nat) <<< 5 - 1) <<< 16 ||| 1 <<< 16 - 1 = 2097151 from by decide]

theorem fbc3 (v : Nat) : findByteCount v 3 = if v ≤ 268435455 then 3 else findByteCount v 4 := by
  rw [findByteCount]
  norm_num
  rw [show ((1:Nat) <<< 4 - 1) <<< 24 ||| 1 <<< 24 - 1 = 268435455 from by decide]

theorem fbc4 (v : Nat) : findByteCount v 4 = if v ≤ 34359738367 then 4 else findByteCount v 5 := by
  rw [findByteCount]
  norm_num
  rw [show ((1:Nat) <<< 3 - 1) <<< 32 ||| 1 <<< 32 - 1 = 34359738367 from by decide]

theorem fbc5 (v : Nat) : findByteCount v 5 = if v ≤ 4398046511103 then 5 else findByteCount v 6 := by
  rw [findByteCount]
  norm_num
  rw [show ((1:Nat) <<< 2 - 1) <<< 40 ||| 1 <<< 40 - 1 = 4398046511103 from by decide]

theorem fbc6 (v : Nat) : findByteCount v 6 = if v ≤ 562949953421311 then 6 else findByteCount v 7 := by
  rw [findByteCount]
  norm_num
  rw [show ((1:Nat) <<< 1 - 1) <<< 48 ||| 1 <<< 48 - 1 = 562949953421311 from by decide]

theorem fbc7 (v : Nat) :
    findByteCount v 7 = if v ≤ 72057594037927935 then 7 else findByteCount v 8 := by
  rw [findByteCount]
  norm_num
  rw [show (1:Nat) <<< 56 - 1 = 72057594037927935 from by decide]

theorem fbc8 (v : Nat) : findByteCount v 8 = 8 := by
  rw [findByteCount]; norm_num

/-- Closed form of the byte-count search: the thresholds are
`2^(7 + 7*k) - 1` for `k = 1..7`. -/
theorem findByteCount_spec (v : Nat) : findByteCount v 1 =
    if v ≤ 16383 then 1
    else if v ≤ 2097151 then 2
    else if v ≤ 268435455 then 3
    else if v ≤ 34359738367 then 4
    else if v ≤ 4398046511103 then 5
    else if v ≤ 562949953421311 then 6
    else if v ≤ 72057594037927935 then 7
    else 8 := by
  rw [fbc1, fbc2, fbc3, fbc4, fbc5, fbc6, fbc7, fbc8]

theorem mask_eq : ∀ k : Nat, k ≤ 8 →
    255 ^^^ ((255 >>> k) % 256) = (255 <<< (8 - k)) % 256 := by
  decide

theorem write_number_mid (v k : Nat) (hk1 : 1 ≤ k) (hk7 : k ≤ 7)
    (hbc : findByteCount v 1 = k) (hlow : 128 ≤ v)
    (hmod : (v >>> (8 * k)) % 256 = v >>> (8 * k)) :
    write_number v = (((255 <<< (8 - k)) % 256) ||| (v >>> (8 * k))) :: leBytes k v := by
  simp only [write_number, hbc]
  rw [if_neg (by omega), if_neg (by omega), mask_eq k (by omega), Nat.mul_comm k 8, hmod]

/-- C6: `write_number` emits exactly the 7z NUMBER encoding: a value
below `0x80` is a single byte; a value at least `2^56` is `0xFF`
followed by 8 little-endian bytes; otherwise, for the smallest
`k ∈ [1,7]` such that the value fits in `7 - k` high bits plus `8*k`
tail bits, a first byte with `k` leading 1-bits carrying the top bits,
followed by `k` little-endian bytes of the low `8*k` bits. -/
theorem c6_write_number (v : Nat) (hv : v < 2 ^ 64) :
    (v < 128 → write_number v = [v]) ∧
    (2 ^ 56 ≤ v → write_number v = 255 :: leBytes 8 v) ∧
    (128 ≤ v → v < 2 ^ 56 →
      ∃ k, 1 ≤ k ∧ k ≤ 7 ∧ v < 2 ^ (7 - k + 8 * k) ∧
        (∀ j, 1 ≤ j → v < 2 ^ (7 - j + 8 * j) → k ≤ j) ∧
        write_number v =
          (((255 <<< (8 - k)) % 256) ||| (v >>> (8 * k))) :: leBytes k v) := by
  refine ⟨fun h => ?_, fun h => ?_, fun h1 h2 => ?_⟩
  · simp only [write_number]
    rw [if_pos h, Nat.mod_eq_of_lt (by omega)]
  · norm_num at h
    have hbc : findByteCount v 1 = 8 := by
      rw [findByteCount_spec, if_neg (by omega), if_neg (by omega), if_neg (by omega),
        if_neg (by omega), if_neg (by omega), if_neg (by omega), if_neg (by omega)]
    simp only [write_number, hbc]
    rw [if_neg (by omega)]
    norm_num
  · norm_num at h2
    by_cases c1 : v ≤ 16383
    · refine ⟨1, by norm_num, by norm_num, by norm_num; omega, fun j hj _ => hj, ?_⟩
      refine write_number_mid v 1 (by norm_num) (by norm_num) ?_ h1 ?_
      · rw [findByteCount_spec, if_pos c1]
      · rw [Nat.shiftRight_eq_div_pow]
        norm_num
        omega
    · by_cases c2 : v ≤ 2097151
      · refine ⟨2, by norm_num, by norm_num, by norm_num; omega, ?_, ?_⟩
        · intro j hj hfit
          by_contra hc
          interval_cases j <;> norm_num at hfit <;> omega
        · refine write_number_mid v 2 (by norm_num) (by norm_num) ?_ h1 ?_
          · rw [findByteCount_spec, if_neg (by omega), if_pos c2]
          · rw [Nat.shiftRight_eq_div_pow]
            norm_num
            omega
      · by_cases c3 : v ≤ 268435455
        · refine ⟨3, by norm_num, by norm_num, by norm_num; omega, ?_, ?_⟩
          · intro j hj hfit
            by_contra hc
            interval_cases j <;> norm_num at hfit <;> omega
          · refine write_number_mid v 3 (by norm_num) (by norm_num) ?_ h1 ?_
            · rw [findByteCount_spec, if_neg (by omega), if_neg (by omega), if_pos c3]
            · rw [Nat.shiftRight_eq_div_pow]
              norm_num
              omega
        · by_cases c4 : v ≤ 34359738367
          · refine ⟨4, by norm_num, by norm_num, by norm_num; omega, ?_, ?_⟩
            · intro j hj hfit
              by_contra hc
              interval_cases j <;> norm_num at hfit <;> omega
            · refine write_number_mid v 4 (by norm_num) (by norm_num) ?_ h1 ?_
              · rw [findByteCount_spec, if_neg (by omega), if_neg (by omega),
                  if_neg (by omega), if_pos c4]
              · rw [Nat.shiftRight_eq_div_pow]
                norm_num
                omega
          · by_cases c5 : v ≤ 4398046511103
            · refine ⟨5, by norm_num, by norm_num, by norm_num; omega, ?_, ?_⟩
              · intro j hj hfit
                by_contra hc
                interval_cases j <;> norm_num at hfit <;> omega
              · refine write_number_mid v 5 (by norm_num) (by norm_num) ?_ h1 ?_
                · rw [findByteCount_spec, if_neg (by omega), if_neg (by omega),
                    if_neg (by omega), if_neg (by omega), if_pos c5]
                · rw [Nat.shiftRight_eq_div_pow]
                  norm_num
                  omega
            · by_cases c6 : v ≤ 562949953421311
              · refine ⟨6, by norm_num, by norm_num, by norm_num; omega, ?_, ?_⟩
                · intro j hj hfit
                  by_contra hc
                  interval_cases j <;> norm_num at hfit <;> omega
                · refine write_number_mid v 6 (by norm_num) (by norm_num) ?_ h1 ?_
                  · rw [findByteCount_spec, if_neg (by omega), if_neg (by omega),
                      if_neg (by omega), if_neg (by omega), if_neg (by omega), if_pos c6]
                  · rw [Nat.shiftRight_eq_div_pow]
                    norm_num
                    omega
              · refine ⟨7, by norm_num, by norm_num, by norm_num; omega, ?_, ?_⟩
                · intro j hj hfit
                  by_contra hc
                  interval_cases j <;> norm_num at hfit <;> omega
                · refine write_number_mid v 7 (by norm_num) (by norm_num) ?_ h1 ?_
                  · rw [findByteCount_spec, if_neg (by omega), if_neg (by omega),
                      if_neg (by omega), if_neg (by omega), if_neg (by omega),
                      if_neg (by omega), if_pos (by omega)]
                  · rw [Nat.shiftRight_eq_div_pow]
                    norm_num
                    omega

/-- C6 witness: the statement instantiated at `v = 2^32`. -/
theorem c6_witness :
    2 ^ 32 < 2 ^ 64 ∧
    ((2 ^ 32 < 128 → write_number (2 ^ 32) = [2 ^ 32]) ∧
     (2 ^ 56 ≤ 2 ^ 32 → write_number (2 ^ 32) = 255 :: leBytes 8 (2 ^ 32)) ∧
     (128 ≤ 2 ^ 32 → 2 ^ 32 < 2 ^ 56 →
       ∃ k, 1 ≤ k ∧ k ≤ 7 ∧ 2 ^ 32 < 2 ^ (7 - k + 8 * k) ∧
         (∀ j, 1 ≤ j → 2 ^ 32 < 2 ^ (7 - j + 8 * j) → k ≤ j) ∧
         write_number (2 ^ 32) =
           (((255 <<< (8 - k)) % 256) ||| (2 ^ 32 >>> (8 * k))) :: leBytes k (2 ^ 32))) :=
  ⟨by norm_num, c6_write_number (2 ^ 32) (by norm_num)⟩

/-- Fuel-indexed core of slice chunking; `fuel = l.length` suffices
whenever `block_size ≥ 1`, since every step consumes at least one
element. -/
def chunksGo (block_size : Nat) : Nat → List Nat → List (List Nat)
  | 0, _ => []
  | _, [] => []
  | fuel + 1, a :: l =>
    (a :: l).take block_size :: chunksGo block_size fuel ((a :: l).drop block_size)

/-- Embedding of Rust `slice::chunks(block_size)` (collected to a
vector): consecutive slices of `block_size` elements, the last possibly
shorter. Rust panics when `block_size = 0`, for every slice including
the empty one; the panic is modelled as `none`. -/
def chunks (block_size : Nat) (l : List Nat) : Option (List (List Nat)) :=
  if block_size = 0 then none else some (chunksGo block_size l.length l)

theorem chunksGo_flatten (block_size : Nat) (hbs : 1 ≤ block_size) :
    ∀ (fuel : Nat) (l : List Nat), l.length ≤ fuel →
      (chunksGo block_size fuel l).flatten = l := by
  intro fuel
  induction fuel with
  | zero =>
    intro l hl
    have : l = [] := List.eq_nil_of_length_eq_zero (by omega)
    subst this; rfl
  | succ n ih =>
    intro l hl
    match l with
    | [] => rfl
    | a :: t =>
      rw [chunksGo, List.flatten_cons,
        ih _ (by rw [List.length_drop]; simp only [List.length_cons] at hl ⊢; omega),
        List.take_append_drop]

theorem chunksGo_ne_nil (block_size fuel : Nat) (a : Nat) (l : List Nat) :
    chunksGo block_size (fuel + 1) (a :: l) ≠ [] := by
  rw [chunksGo]; simp

/-- Data model of `RawBlock` (src/compression/block.rs, lines 2-5). -/
structure RawBlock where
  data : List Nat
  block_index : Nat
deriving DecidableEq, Repr

instance : Inhabited RawBlock := ⟨⟨[], 0⟩⟩

/-- Embedding of `split_into_blocks` (src/compression/block.rs, lines
17-25): chunk the data, each chunk becoming a `RawBlock` carrying its
enumeration index. -/
def split_into_blocks (data : List Nat) (block_size : Nat) : Option (List RawBlock) :=
  (chunks block_size data).map (fun cs => cs.enum.map (fun p => RawBlock.mk p.2 p.1))

/-- C8: with `block_size ≥ 1`, `split_into_blocks` succeeds, the block
indices are `0, 1, ..., k-1`, and the block data concatenates back to
the input; with `block_size = 0` the slice chunking panics (`none`) for
every input, including the empty one. -/
theorem c8_split_into_blocks (data : List Nat) (block_size : Nat) (hbs : 1 ≤ block_size) :
    (∃ blocks, split_into_blocks data block_size = some blocks ∧
       blocks.map RawBlock.block_index = List.range blocks.length ∧
       (blocks.map RawBlock.data).flatten = data) ∧
    (∀ d : List Nat, split_into_blocks d 0 = none) := by
  constructor
  · refine ⟨(chunksGo block_size data.length data).enum.map (fun p => RawBlock.mk p.2 p.1),
      ?_, ?_, ?_⟩
    · rw [split_into_blocks, chunks, if_neg (by omega)]
      rfl
    · rw [List.map_map, List.length_map, List.enum_length]
      have : (RawBlock.block_index ∘ fun p : Nat × List Nat => RawBlock.mk p.2 p.1) =
          Prod.fst := rfl
      rw [this, List.enum_map_fst]
    · rw [List.map_map]
      have : (RawBlock.data ∘ fun p : Nat × List Nat => RawBlock.mk p.2 p.1) =
          Prod.snd := rfl
      rw [this, List.enum_map_snd]
      exact chunksGo_flatten block_size hbs data.length data le_rfl
  · intro d
    rw [split_into_blocks, chunks, if_pos rfl]
    rfl

/-- C8 witness: the statement instantiated at `data = [1, 2, 3]`,
`block_size = 2`. -/
theorem c8_witness :
    1 ≤ 2 ∧
    ((∃ blocks, split_into_blocks [1, 2, 3] 2 = some blocks ∧
        blocks.map RawBlock.block_index = List.range blocks.length ∧
        (blocks.map RawBlock.data).flatten = [1, 2, 3]) ∧
     (∀ d : List Nat, split_into_blocks d 0 = none)) :=
  ⟨by decide, c8_split_into_blocks [1, 2, 3] 2 (by decide)⟩

/-- Value of the constant `LZMA2_END_MARKER` (src/compression/lzma2.rs,
line 95). -/
def LZMA2_END_MARKER : Nat := 0x00

/-- Embedding of `concatenate_lzma2_streams` (src/compression/lzma2.rs,
lines 103-136): an empty input yields the bare end marker; a stream not
ending in the marker yields the `Compression` error; a single stream is
returned unchanged; otherwise every stream but the last is written
without its final marker byte. -/
def concatenate_lzma2_streams (streams : List (List Nat)) :
    Except SevenZipError (List Nat) :=
  if streams.isEmpty then .ok [LZMA2_END_MARKER]
  else if streams.all (fun s => s.getLast? == some LZMA2_END_MARKER) then
    if streams.length == 1 then .ok streams.headI
    else
      .ok ((((streams.take (streams.length - 1)).map (fun s => s.dropLast)).flatten)
        ++ streams.getLastD [])
  else .error (.Compression "invalid LZMA2 stream: missing end-of-stream marker")

/-- C9: `concatenate_lzma2_streams []` is `Ok [0x00]` (a bare LZMA2
end-of-stream marker), not an error; and on a non-empty input it
returns an error exactly when some input stream (the last included)
does not end in `0x00`. -/
theorem c9_concatenate (streams : List (List Nat)) (hne : streams ≠ []) :
    concatenate_lzma2_streams [] = .ok [0] ∧
    ((∃ msg, concatenate_lzma2_streams streams =
        .error (SevenZipError.Compression msg)) ↔
      ∃ s ∈ streams, s.getLast? ≠ some 0) := by
  refine ⟨rfl, ?_⟩
  obtain ⟨a, t, rfl⟩ : ∃ a t, streams = a :: t := by
    cases streams with
    | nil => exact absurd rfl hne
    | cons a t => exact ⟨a, t, rfl⟩
  by_cases hall : ∀ s ∈ a :: t, s.getLast? = some 0
  · have hb : (a :: t).all (fun s => s.getLast? == some LZMA2_END_MARKER) = true := by
      rw [List.all_eq_true]
      intro s hs
      exact beq_iff_eq.mpr (hall s hs)
    rw [concatenate_lzma2_streams]
    simp only [List.isEmpty_cons, if_neg (by decide : ¬(false = true)), hb, if_pos rfl]
    constructor
    · rintro ⟨msg, hmsg⟩
      by_cases hlen : ((a :: t).length == 1) = true
      · rw [if_pos hlen] at hmsg
        exact Except.noConfusion hmsg
      · rw [if_neg hlen] at hmsg
        exact Except.noConfusion hmsg
    · intro ⟨s, hs, hlast⟩
      exact absurd (hall s hs) hlast
  · have hb : (a :: t).all (fun s => s.getLast? == some LZMA2_END_MARKER) = false := by
      rw [List.all_eq_false]
      push_neg at hall
      obtain ⟨s, hs, hlast⟩ := hall
      exact ⟨s, hs, by simpa [LZMA2_END_MARKER] using hlast⟩
    rw [concatenate_lzma2_streams]
    simp only [List.isEmpty_cons, if_neg (by decide : ¬(false = true)), hb]
    constructor
    · intro _
      push_neg at hall
      obtain ⟨s, hs, hlast⟩ := hall
      exact ⟨s, hs, hlast⟩
    · intro _
      exact ⟨"invalid LZMA2 stream: missing end-of-stream marker", rfl⟩

/-- C9 witness: the statement instantiated at `streams = [[5, 0]]`. -/
theorem c9_witness :
    ([[5, 0]] : List (List Nat)) ≠ [] ∧
    (concatenate_lzma2_streams [] = .ok [0] ∧
     ((∃ msg, concatenate_lzma2_streams [[5, 0]] =
         .error (SevenZipError.Compression msg)) ↔
       ∃ s ∈ [[5, 0]], List.getLast? s ≠ some 0)) :=
  ⟨by decide, c9_concatenate [[5, 0]] (by decide)⟩

/-- Embedding of `Lzma2Config` (src/compression/lzma2.rs, lines 7-16). -/
structure Lzma2Config where
  preset : Nat
  dict_size : Option Nat
  block_size : Option Nat
deriving DecidableEq, Repr

/-- Embedding of `enum PendingEntry` (src/archive/builder.rs, lines
23-32). -/
inductive PendingEntry where
  | File : (disk_path : String) → (archive_name : String) → PendingEntry
  | Bytes : (archive_name : String) → (data : List Nat) → PendingEntry
deriving DecidableEq, Repr

/-- State of `SevenZipWriter` (src/archive/builder.rs, lines 46-51)
relevant to entry queueing: the queued entries, the configuration and
the thread override. The output sink is not needed by these claims. -/
structure SevenZipWriter where
  entries : List PendingEntry
  config : Lzma2Config
  num_threads : Option Nat
deriving DecidableEq, Repr

/-- Embedding of `SevenZipWriter::add_bytes` (src/archive/builder.rs,
lines 92-98): copies the bytes, pushes one `Bytes` entry, returns
`Ok(())`. -/
def add_bytes (w : SevenZipWriter) (archive_name : String) (data : List Nat) :
    Except SevenZipError SevenZipWriter :=
  .ok { w with entries := w.entries ++ [PendingEntry.Bytes archive_name data] }

/-- C10: `add_bytes` always returns `Ok`, never an error, and appends
exactly one entry to the queue. -/
theorem c10_add_bytes (w : SevenZipWriter) (archive_name : String) (data : List Nat) :
    add_bytes w archive_name data =
      .ok { w with entries := w.entries ++ [PendingEntry.Bytes archive_name data] } ∧
    (∀ e, add_bytes w archive_name data ≠ .error e) ∧
    (∀ w2, add_bytes w archive_name data = .ok w2 →
      w2.entries.length = w.entries.length + 1) := by
  refine ⟨rfl, fun e h => Except.noConfusion h, fun w2 h => ?_⟩
  cases h
  simp

/-- Data model of `CompressedBlock` (src/compression/block.rs, lines
8-14). -/
structure CompressedBlock where
  compressed_data : List Nat
  uncompressed_size : Nat
  compressed_size : Nat
  uncompressed_crc : Nat
  block_index : Nat
deriving DecidableEq, Repr

instance : Inhabited CompressedBlock := ⟨⟨[], 0, 0, 0, 0⟩⟩

/-- Embedding of `compress_raw_block` (src/threading/worker.rs, lines
6-19). The LZMA2 encoder (external crate `lzma_rust2`, already mapped
to the `Compression` error by `compress_block`) and the CRC-32 hash
(external crate `crc32fast`) are opaque to the design and appear as the
parameters `compress` and `crc32`. -/
def compress_raw_block (compress : List Nat → Except SevenZipError (List Nat))
    (crc32 : List Nat → Nat) (block : RawBlock) : Except SevenZipError CompressedBlock :=
  match compress block.data with
  | .error e => .error e
  | .ok compressed_data =>
    .ok { compressed_data := compressed_data,
          uncompressed_size := block.data.length,
          compressed_size := compressed_data.length,
          uncompressed_crc := crc32 block.data,
          block_index := block.block_index }

/-- Rayon `collect::<Result<Vec<_>>>` over the mapped blocks
(src/threading/scheduler.rs, lines 24-29): every per-block result in
input order, or the first error. -/
def collectCompressed (compress : List Nat → Except SevenZipError (List Nat))
    (crc32 : List Nat → Nat) :
    List RawBlock → Except SevenZipError (List CompressedBlock)
  | [] => .ok []
  | b :: rest =>
    match compress_raw_block compress crc32 b with
    | .error e => .error e
    | .ok c =>
      match collectCompressed compress crc32 rest with
      | .error e => .error e
      | .ok cs => .ok (c :: cs)

/-- Key order of `results.sort_by_key(|b| b.block_index)`. -/
def blockLe (a b : CompressedBlock) : Prop := a.block_index ≤ b.block_index

instance : DecidableRel blockLe := fun a b => Nat.decLe a.block_index b.block_index

instance : IsTotal CompressedBlock blockLe := ⟨fun a b => Nat.le_total _ _⟩

instance : IsTrans CompressedBlock blockLe := ⟨fun _ _ _ => Nat.le_trans⟩

/-- Embedding of `compress_blocks_parallel` (src/threading/scheduler.rs,
lines 11-33). Thread-pool construction is modelled as succeeding (its
failure is the environmental `Threading` error); each block's
compression is independent, so the parallel map produces the same
deterministic per-block results in any schedule, and the final stable
sort by `block_index` fixes the order. -/
def compress_blocks_parallel (compress : List Nat → Except SevenZipError (List Nat))
    (crc32 : List Nat → Nat) (blocks : List RawBlock) :
    Except SevenZipError (List CompressedBlock) :=
  match collectCompressed compress crc32 blocks with
  | .error e => .error e
  | .ok results => .ok (List.insertionSort blockLe results)

theorem collectCompressed_map_index (compress : List Nat → Except SevenZipError (List Nat))
    (crc32 : List Nat → Nat) :
    ∀ (blocks : List RawBlock) (res : List CompressedBlock),
      collectCompressed compress crc32 blocks = .ok res →
      res.map CompressedBlock.block_index = blocks.map RawBlock.block_index := by
  intro blocks
  induction blocks with
  | nil =>
    intro res h
    cases h
    rfl
  | cons b rest ih =>
    intro res h
    rw [collectCompressed] at h
    cases hcb : compress_raw_block compress crc32 b with
    | error e => rw [hcb] at h; exact Except.noConfusion h
    | ok c =>
      rw [hcb] at h
      cases hrest : collectCompressed compress crc32 rest with
      | error e => rw [hrest] at h; exact Except.noConfusion h
      | ok cs =>
        rw [hrest] at h
        cases h
        have hidx : c.block_index = b.block_index := by
          rw [compress_raw_block] at hcb
          cases hco : compress b.data with
          | error e => rw [hco] at hcb; exact Except.noConfusion hcb
          | ok cd =>
            rw [hco] at hcb
            cases hcb
            rfl
        rw [List.map_cons, List.map_cons, hidx, ih cs hrest]

/-- C2 counterexample: the scheduler never renumbers block indices, so
an input whose single raw block carries index 1 comes back with index
1, not the claimed `0, ..., N-1`. The stand-in encoder returns its
input unchanged; index handling is independent of the encoder. -/
theorem c2_counterexample :
    ∃ res, compress_blocks_parallel (fun d => .ok d) (fun _ => 0)
        [RawBlock.mk [] 1] = .ok res ∧
      res.map CompressedBlock.block_index ≠ List.range 1 := by
  exact ⟨[CompressedBlock.mk [] 0 0 0 1], rfl, by decide⟩

/-- C2 (amended): provided the input block indices are exactly
`0, ..., N-1` (the dense-index invariant the builder maintains for every
batch), a successful `compress_blocks_parallel` returns `N` compressed
blocks whose indices are `0, 1, ..., N-1` in ascending order. -/
theorem c2_scheduler_order (compress : List Nat → Except SevenZipError (List Nat))
    (crc32 : List Nat → Nat) (blocks : List RawBlock) (res : List CompressedBlock)
    (hidx : (blocks.map RawBlock.block_index).Perm (List.range blocks.length))
    (hok : compress_blocks_parallel compress crc32 blocks = .ok res) :
    res.length = blocks.length ∧
    res.map CompressedBlock.block_index = List.range blocks.length := by
  rw [compress_blocks_parallel] at hok
  cases hcol : collectCompressed compress crc32 blocks with
  | error e => rw [hcol] at hok; exact Except.noConfusion hok
  | ok results =>
    rw [hcol] at hok
    cases hok
    have hperm : (List.insertionSort blockLe results).Perm results :=
      List.perm_insertionSort blockLe results
    have hmapped :
        ((List.insertionSort blockLe results).map CompressedBlock.block_index).Perm
          (List.range blocks.length) := by
      refine ((hperm.map CompressedBlock.block_index).trans ?_)
      rw [collectCompressed_map_index compress crc32 blocks results hcol]
      exact hidx
    have hsorted :
        List.Sorted (· ≤ ·)
          ((List.insertionSort blockLe results).map CompressedBlock.block_index) := by
      have hs := List.sorted_insertionSort blockLe results
      exact List.Pairwise.map CompressedBlock.block_index (fun a b hab => hab) hs
    have heq :
        (List.insertionSort blockLe results).map CompressedBlock.block_index =
          List.range blocks.length :=
      List.eq_of_perm_of_sorted hmapped hsorted (List.sorted_le_range blocks.length)
    constructor
    · have := congrArg List.length heq
      simpa using this
    · exact heq

/-- C2 witness: the amended statement instantiated at a single block
with the dense index 0. -/
theorem c2_witness :
    (([RawBlock.mk [7] 0].map RawBlock.block_index).Perm (List.range 1)) ∧
    compress_blocks_parallel (fun d => .ok d) (fun _ => 0) [RawBlock.mk [7] 0] =
      .ok [CompressedBlock.mk [7] 1 1 0 0] ∧
    ([CompressedBlock.mk [7] 1 1 0 0].length = 1 ∧
     [CompressedBlock.mk [7] 1 1 0 0].map CompressedBlock.block_index = List.range 1) :=
  ⟨by decide, rfl,
    c2_scheduler_order (fun d => .ok d) (fun _ => 0) [RawBlock.mk [7] 0]
      [CompressedBlock.mk [7] 1 1 0 0] (by decide) rfl⟩

/-- Loop of `write_file_blocks` (src/archive/builder.rs, lines 331-353),
structurally recursive on `remaining = block_count - i`, the number of
blocks still to consume; `i < last_index` in the source is exactly
`1 < remaining`. An intermediate block must end with the LZMA2 end
marker and is written without it; the final block is written unchanged;
an exhausted iterator is the first `Compression` error of the source.
Returns the written bytes, the accumulated compressed size, and the
iterator rest. -/
def writeBlocksGo :
    Nat → List CompressedBlock → List Nat → Nat →
    Except SevenZipError (List Nat × Nat × List CompressedBlock)
  | 0, iter, out, compressed_size => .ok (out, compressed_size, iter)
  | _ + 1, [], _, _ => .error (.Compression "unexpected end of compressed blocks")
  | remaining + 1, block :: rest, out, compressed_size =>
    if 0 < remaining then
      if block.compressed_data.getLast? ≠ some LZMA2_END_MARKER then
        .error (.Compression "invalid LZMA2 stream: missing end-of-stream marker")
      else
        writeBlocksGo remaining rest (out ++ block.compressed_data.dropLast)
          (compressed_size + block.compressed_data.dropLast.length)
    else
      writeBlocksGo remaining rest (out ++ block.compressed_data)
        (compressed_size + block.compressed_data.length)

/-- Embedding of `write_file_blocks` (src/archive/builder.rs, lines
323-356): consume `block_count` blocks from the iterator and write them
as one stream. The source computes `last_index = block_count - 1` in
`usize` and is only called with `block_count ≥ 1` (one count per
non-empty entry); the claims carry that hypothesis. -/
def write_file_blocks (iter : List CompressedBlock) (block_count : Nat) :
    Except SevenZipError (List Nat × Nat × List CompressedBlock) :=
  writeBlocksGo block_count iter [] 0

theorem writeBlocksGo_ok_append :
    ∀ (pre : List CompressedBlock) (b : CompressedBlock) (rest : List CompressedBlock)
      (out : List Nat) (sz : Nat),
      (∀ x ∈ pre, x.compressed_data.getLast? = some LZMA2_END_MARKER) →
      writeBlocksGo (pre.length + 1) (pre ++ b :: rest) out sz =
        .ok (out ++ ((pre.map (fun x => x.compressed_data.dropLast)).flatten
                ++ b.compressed_data),
             sz + ((pre.map (fun x => x.compressed_data.dropLast)).flatten
                ++ b.compressed_data).length,
             rest) := by
  intro pre
  induction pre with
  | nil =>
    intro b rest out sz _
    simp [writeBlocksGo]
  | cons x pre ih =>
    intro b rest out sz hmark
    have hx : x.compressed_data.getLast? = some LZMA2_END_MARKER :=
      hmark x (List.mem_cons_self x pre)
    rw [List.length_cons, List.cons_append, writeBlocksGo]
    rw [if_pos (by omega : 0 < pre.length + 1), if_neg (not_not_intro hx)]
    rw [ih b rest _ _ (fun y hy => hmark y (List.mem_cons_of_mem x hy))]
    simp [List.append_assoc]
    omega

theorem writeBlocksGo_ok_shape :
    ∀ (remaining : Nat) (iter : List CompressedBlock) (out : List Nat) (sz : Nat) r,
      writeBlocksGo remaining iter out sz = .ok r →
      remaining ≤ iter.length ∧
      ∀ x ∈ iter.take (remaining - 1),
        x.compressed_data.getLast? = some LZMA2_END_MARKER := by
  intro remaining
  induction remaining with
  | zero =>
    intro iter out sz r _
    exact ⟨Nat.zero_le _, by simp⟩
  | succ n ih =>
    intro iter out sz r h
    match iter with
    | [] => exact Except.noConfusion h
    | x :: rest =>
      rw [writeBlocksGo] at h
      by_cases hn : 0 < n
      · rw [if_pos hn] at h
        by_cases hx : x.compressed_data.getLast? ≠ some LZMA2_END_MARKER
        · rw [if_pos hx] at h
          exact Except.noConfusion h
        · rw [if_neg hx] at h
          obtain ⟨h1, h2⟩ := ih rest _ _ r h
          refine ⟨by simpa using Nat.succ_le_succ h1, ?_⟩
          intro y hy
          rw [show n + 1 - 1 = (n - 1) + 1 from by omega, List.take_succ_cons] at hy
          rcases List.mem_cons.mp hy with h3 | h3
          · subst h3
            exact not_not.mp hx
          · exact h2 y h3
      · rw [if_neg hn] at h
        have hn0 : n = 0 := by omega
        subst hn0
        refine ⟨by simp, ?_⟩
        intro y hy
        simp at hy

theorem writeBlocksGo_ok_or_compression :
    ∀ (remaining : Nat) (iter : List CompressedBlock) (out : List Nat) (sz : Nat),
      (∃ r, writeBlocksGo remaining iter out sz = .ok r) ∨
      (∃ msg, writeBlocksGo remaining iter out sz =
        .error (SevenZipError.Compression msg)) := by
  intro remaining
  induction remaining with
  | zero => intro iter out sz; exact Or.inl ⟨_, rfl⟩
  | succ n ih =>
    intro iter out sz
    match iter with
    | [] => exact Or.inr ⟨_, rfl⟩
    | x :: rest =>
      rw [writeBlocksGo]
      by_cases hn : 0 < n
      · rw [if_pos hn]
        by_cases hx : x.compressed_data.getLast? ≠ some LZMA2_END_MARKER
        · rw [if_pos hx]
          exact Or.inr ⟨_, rfl⟩
        · rw [if_neg hx]
          exact ih rest _ _
      · rw [if_neg hn]
        exact ih rest _ _

/-- C1: with `block_count ≥ 1`, `write_file_blocks` writes the entry's
blocks in iterator order (ascending block order, the iterator being the
index-sorted scheduler output) as a single stream, stripping the
trailing `0x00` end-of-stream marker from every block except the last
and writing the last unchanged, and returns a compressed size equal to
the total bytes written; it fails, always with the `Compression` error,
exactly when an intermediate block does not end in `0x00` or the
iterator holds fewer than `block_count` blocks. -/
theorem c1_write_file_blocks (iter : List CompressedBlock) (bc : Nat) (hbc : 1 ≤ bc) :
    (∀ (pre : List CompressedBlock) (b : CompressedBlock) (rest : List CompressedBlock),
      iter = pre ++ b :: rest → pre.length = bc - 1 →
      (∀ x ∈ pre, x.compressed_data.getLast? = some 0) →
      write_file_blocks iter bc =
        .ok ((pre.map (fun x => x.compressed_data.dropLast)).flatten ++ b.compressed_data,
             ((pre.map (fun x => x.compressed_data.dropLast)).flatten
               ++ b.compressed_data).length,
             rest)) ∧
    (¬ (bc ≤ iter.length ∧
          ∀ x ∈ iter.take (bc - 1), x.compressed_data.getLast? = some 0) →
      ∃ msg, write_file_blocks iter bc = .error (SevenZipError.Compression msg)) := by
  constructor
  · intro pre b rest hiter hlen hmark
    subst hiter
    rw [write_file_blocks, show bc = pre.length + 1 from by omega]
    rw [writeBlocksGo_ok_append pre b rest [] 0 (by simpa [LZMA2_END_MARKER] using hmark)]
    simp
  · intro hnot
    rcases writeBlocksGo_ok_or_compression bc iter [] 0 with ⟨r, hr⟩ | ⟨msg, hmsg⟩
    · obtain ⟨h1, h2⟩ := writeBlocksGo_ok_shape bc iter [] 0 r hr
      exact absurd ⟨h1, by simpa [LZMA2_END_MARKER] using h2⟩ hnot
    · exact ⟨msg, hmsg⟩

/-- C1 witness: two blocks, the first ending in the marker; the output
strips the intermediate marker, keeps the last block intact, and the
returned size equals the bytes written. -/
theorem c1_witness :
    1 ≤ 2 ∧
    ((∀ (pre : List CompressedBlock) (b : CompressedBlock) (rest : List CompressedBlock),
      [CompressedBlock.mk [5, 0] 9 2 3 0, CompressedBlock.mk [7] 1 1 4 1] =
          pre ++ b :: rest →
      pre.length = 2 - 1 →
      (∀ x ∈ pre, x.compressed_data.getLast? = some 0) →
      write_file_blocks [CompressedBlock.mk [5, 0] 9 2 3 0,
          CompressedBlock.mk [7] 1 1 4 1] 2 =
        .ok ((pre.map (fun x => x.compressed_data.dropLast)).flatten ++ b.compressed_data,
             ((pre.map (fun x => x.compressed_data.dropLast)).flatten
               ++ b.compressed_data).length,
             rest)) ∧
    (¬ (2 ≤ ([CompressedBlock.mk [5, 0] 9 2 3 0,
              CompressedBlock.mk [7] 1 1 4 1] : List CompressedBlock).length ∧
          ∀ x ∈ ([CompressedBlock.mk [5, 0] 9 2 3 0,
                  CompressedBlock.mk [7] 1 1 4 1] : List CompressedBlock).take (2 - 1),
            x.compressed_data.getLast? = some 0) →
      ∃ msg, write_file_blocks [CompressedBlock.mk [5, 0] 9 2 3 0,
          CompressedBlock.mk [7] 1 1 4 1] 2 =
        .error (SevenZipError.Compression msg))) :=
  ⟨by decide,
    c1_write_file_blocks
      [CompressedBlock.mk [5, 0] 9 2 3 0, CompressedBlock.mk [7] 1 1 4 1] 2 (by decide)⟩

/-- Per-entry accounting `FileMeta` (src/archive/builder.rs, lines
13-20). -/
structure FileMeta where
  name : String
  mtime : Option Nat
  uncompressed_size : Nat
  crc : Nat
  block_count : Nat
deriving DecidableEq, Repr

/-- Data model of `FolderInfo` (src/archive/header.rs, lines 43-48). -/
structure FolderInfo where
  compressed_size : Nat
  uncompressed_size : Nat
  uncompressed_crc : Nat
  lzma2_properties_byte : Nat
deriving DecidableEq, Repr

/-- Data model of `FileEntry` (src/archive/header.rs, lines 33-40). -/
structure FileEntry where
  name : String
  uncompressed_size : Nat
  compressed_size : Nat
  crc : Nat
  has_data : Bool
  modified_time : Option Nat
deriving DecidableEq, Repr

/-- Accumulators of `finish` step 1 (src/archive/builder.rs, lines
104-106): `file_metas`, `raw_blocks` and `empty_files`. -/
structure CollectState where
  file_metas : List FileMeta
  raw_blocks : List RawBlock
  empty_files : List (String × Option Nat)
deriving DecidableEq, Repr

/-- Embedding of `split_bytes_into_blocks` (src/archive/builder.rs,
lines 280-318): an empty entry is set aside with no meta and no block;
otherwise the data becomes one block (zero copy) or `chunks` of at most
`block_size` bytes, indexed from the current global block count, and a
meta with `block_count = ` number of new blocks is appended. The CRC-32
hash is the parameter `crc32`. -/
def split_bytes_into_blocks (crc32 : List Nat → Nat) (archive_name : String)
    (data : List Nat) (block_size : Nat) (st : CollectState) : Option CollectState :=
  if data = [] then
    some { st with empty_files := st.empty_files ++ [(archive_name, none)] }
  else
    let uncompressed_size := data.length
    let crc := crc32 data
    let first_block := st.raw_blocks.length
    let newBlocks :=
      if data.length ≤ block_size then some [RawBlock.mk data first_block]
      else (chunks block_size data).map
        (fun cs => cs.enum.map (fun p => RawBlock.mk p.2 (first_block + p.1)))
    newBlocks.map (fun nbs =>
      { st with
        raw_blocks := st.raw_blocks ++ nbs
        file_metas := st.file_metas ++
          [FileMeta.mk archive_name none uncompressed_size crc nbs.length] })

/-- Step 1 of `finish` (src/archive/builder.rs, lines 112-141) for
queues of in-memory entries, each a name paired with its bytes. Disk
entries (`read_file_into_blocks`) follow the same meta/empty/block
bookkeeping with chunked reads; the ordering claims are settled on the
in-memory path. -/
def collectEntries (crc32 : List Nat → Nat) (block_size : Nat) :
    List (String × List Nat) → CollectState → Option CollectState
  | [], st => some st
  | e :: rest, st =>
    match split_bytes_into_blocks crc32 e.1 e.2 block_size st with
    | none => none
    | some st2 => collectEntries crc32 block_size rest st2

/-- Observable result of `finish`: the packed byte stream written after
the signature placeholder, and the `folders` and `files` lists of the
`ArchiveHeader` handed to the serializer. -/
structure FinishResult where
  packed : List Nat
  folders : List FolderInfo
  files : List FileEntry
deriving DecidableEq, Repr

/-- Loop of `finish` step 3 (src/archive/builder.rs, lines 161-182):
per meta, consume `block_count` compressed blocks, write them as one
stream, and record one `FolderInfo` and one `FileEntry` with
`has_data = true`. -/
def writeAllFiles (properties_byte : Nat) :
    List FileMeta → List CompressedBlock → List Nat →
    Except SevenZipError (List Nat × List FolderInfo × List FileEntry)
  | [], _, out => .ok (out, [], [])
  | meta :: rest, iter, out =>
    match write_file_blocks iter meta.block_count with
    | .error e => .error e
    | .ok (payload, compressed_size, iter2) =>
      match writeAllFiles properties_byte rest iter2 (out ++ payload) with
      | .error e => .error e
      | .ok (outAll, folders, files) =>
        .ok (outAll,
          FolderInfo.mk compressed_size meta.uncompressed_size meta.crc
            properties_byte :: folders,
          FileEntry.mk meta.name meta.uncompressed_size compressed_size meta.crc
            true meta.mtime :: files)

/-- Embedding of `SevenZipWriter::finish` (src/archive/builder.rs,
lines 102-222) for queues of in-memory entries: collect metas and raw
blocks, compress the batch in parallel, write each non-empty entry's
blocks as one stream, then append the empty entries with zero sizes,
zero CRC and `has_data = false`. `dict_size` stands for
`config.effective_dict_size()` (a default of the external encoder
crate); header serialization and the signature patch consume `folders`
and `files` unchanged, so the model returns them. -/
def finishModel (compress : List Nat → Except SevenZipError (List Nat))
    (crc32 : List Nat → Nat) (dict_size : Nat)
    (entries : List (String × List Nat)) (block_size : Nat) :
    Option (Except SevenZipError FinishResult) :=
  match collectEntries crc32 block_size entries ⟨[], [], []⟩ with
  | none => none
  | some st =>
    some (
      match
        (if st.raw_blocks.isEmpty then .ok []
         else compress_blocks_parallel compress crc32 st.raw_blocks) with
      | .error e => .error e
      | .ok compressed_blocks =>
        match writeAllFiles (encode_properties_byte dict_size) st.file_metas
            compressed_blocks [] with
        | .error e => .error e
        | .ok (packed, folders, files) =>
          .ok (FinishResult.mk packed folders
            (files ++ st.empty_files.map
              (fun e => FileEntry.mk e.1 0 0 0 false e.2))))

theorem split_bytes_spec (crc32 : List Nat → Nat) (archive_name : String)
    (data : List Nat) (block_size : Nat) (st st2 : CollectState)
    (h : split_bytes_into_blocks crc32 archive_name data block_size st = some st2) :
    (data = [] →
      st2.file_metas = st.file_metas ∧ st2.raw_blocks = st.raw_blocks ∧
      st2.empty_files = st.empty_files ++ [(archive_name, none)]) ∧
    (data ≠ [] →
      ∃ nbs : List RawBlock,
        1 ≤ nbs.length ∧
        st2.file_metas = st.file_metas ++
          [FileMeta.mk archive_name none data.length (crc32 data) nbs.length] ∧
        st2.raw_blocks = st.raw_blocks ++ nbs ∧
        st2.empty_files = st.empty_files) := by
  by_cases hd : data = []
  · rw [split_bytes_into_blocks, if_pos hd] at h
    cases h
    exact ⟨fun _ => ⟨rfl, rfl, rfl⟩, fun hne => absurd hd hne⟩
  · simp only [split_bytes_into_blocks, if_neg hd] at h
    refine ⟨fun he => absurd he hd, fun _ => ?_⟩
    by_cases hlen : data.length ≤ block_size
    · rw [if_pos hlen] at h
      simp only [Option.map] at h
      cases h
      exact ⟨[RawBlock.mk data st.raw_blocks.length], by simp, rfl, rfl, rfl⟩
    · rw [if_neg hlen] at h
      cases hch : chunks block_size data with
      | none => rw [hch] at h; exact Option.noConfusion h
      | some cs =>
        rw [hch] at h
        simp only [Option.map] at h
        cases h
        refine ⟨cs.enum.map (fun p => RawBlock.mk p.2 (st.raw_blocks.length + p.1)),
          ?_, rfl, rfl, rfl⟩
        rw [List.length_map, List.enum_length]
        rw [chunks] at hch
        by_cases hbs : block_size = 0
        · rw [if_pos hbs] at hch
          exact Option.noConfusion hch
        · rw [if_neg hbs] at hch
          cases hch
          obtain ⟨a, t, rfl⟩ : ∃ a t, data = a :: t := by
            cases data with
            | nil => exact absurd rfl hd
            | cons a t => exact ⟨a, t, rfl⟩
          have := chunksGo_ne_nil block_size t.length a t
          simp only [List.length_cons]
          rcases Nat.eq_zero_or_pos (chunksGo block_size (t.length + 1) (a :: t)).length
            with h0 | h1
          · exact absurd (List.eq_nil_of_length_eq_zero h0) this
          · exact h1

theorem collectEntries_spec (crc32 : List Nat → Nat) (block_size : Nat) :
    ∀ (entries : List (String × List Nat)) (st st' : CollectState),
      collectEntries crc32 block_size entries st = some st' →
      st'.file_metas.map FileMeta.name =
        st.file_metas.map FileMeta.name ++
          (entries.filter (fun e => !e.2.isEmpty)).map Prod.fst ∧
      st'.empty_files.map Prod.fst =
        st.empty_files.map Prod.fst ++
          (entries.filter (fun e => e.2.isEmpty)).map Prod.fst ∧
      (∀ m ∈ st'.file_metas, m ∈ st.file_metas ∨ 1 ≤ m.block_count) ∧
      st'.raw_blocks.length + (st.file_metas.map FileMeta.block_count).sum =
        st.raw_blocks.length + (st'.file_metas.map FileMeta.block_count).sum := by
  intro entries
  induction entries with
  | nil =>
    intro st st' h
    cases h
    exact ⟨by simp, by simp, fun m hm => Or.inl hm, rfl⟩
  | cons e rest ih =>
    intro st st' h
    rw [collectEntries] at h
    cases hsp : split_bytes_into_blocks crc32 e.1 e.2 block_size st with
    | none => rw [hsp] at h; exact Option.noConfusion h
    | some st2 =>
      rw [hsp] at h
      obtain ⟨hm, he, hbc, hraw⟩ := ih st2 st' h
      obtain ⟨hemp, hnemp⟩ := split_bytes_spec crc32 e.1 e.2 block_size st st2 hsp
      by_cases hd : e.2 = []
      · obtain ⟨h1, h2, h3⟩ := hemp hd
        have hfil1 : List.filter (fun e : String × List Nat => !e.2.isEmpty) (e :: rest) =
            List.filter (fun e => !e.2.isEmpty) rest := by
          simp [List.filter_cons, hd]
        have hfil2 : List.filter (fun e : String × List Nat => e.2.isEmpty) (e :: rest) =
            e :: List.filter (fun e => e.2.isEmpty) rest := by
          simp [List.filter_cons, hd]
        refine ⟨by rw [hm, h1, hfil1], ?_, ?_, by rw [h1, h2] at hraw; exact hraw⟩
        · rw [he, h3, hfil2]
          simp
        · intro m hmem
          rcases hbc m hmem with h4 | h4
          · rw [h1] at h4
            exact Or.inl h4
          · exact Or.inr h4
      · obtain ⟨nbs, hn1, h1, h2, h3⟩ := hnemp hd
        have hfil1 : List.filter (fun e : String × List Nat => !e.2.isEmpty) (e :: rest) =
            e :: List.filter (fun e => !e.2.isEmpty) rest := by
          simp [List.filter_cons, List.isEmpty_iff, hd]
        have hfil2 : List.filter (fun e : String × List Nat => e.2.isEmpty) (e :: rest) =
            List.filter (fun e => e.2.isEmpty) rest := by
          simp [List.filter_cons, List.isEmpty_iff, hd]
        refine ⟨?_, by rw [he, h3, hfil2], ?_, ?_⟩
        · rw [hm, h1, hfil1]
          simp
        · intro m hmem
          rcases hbc m hmem with h4 | h4
          · rw [h1] at h4
            rcases List.mem_append.mp h4 with h5 | h5
            · exact Or.inl h5
            · simp at h5
              subst h5
              exact Or.inr hn1
          · exact Or.inr h4
        · rw [h1, h2] at hraw
          simp only [List.map_append, List.sum_append, List.length_append] at hraw
          simp only [List.map_cons, List.map_nil, List.sum_cons, List.sum_nil] at hraw
          omega

theorem writeAllFiles_spec (properties_byte : Nat) :
    ∀ (metas : List FileMeta) (iter : List CompressedBlock) (out packed : List Nat)
      (folders : List FolderInfo) (files : List FileEntry),
      writeAllFiles properties_byte metas iter out = .ok (packed, folders, files) →
      files.map FileEntry.name = metas.map FileMeta.name ∧
      folders.length = metas.length ∧
      ∀ f ∈ files, f.has_data = true := by
  intro metas
  induction metas with
  | nil =>
    intro iter out packed folders files h
    rw [writeAllFiles] at h
    cases h
    simp
  | cons meta rest ih =>
    intro iter out packed folders files h
    rw [writeAllFiles] at h
    cases hwf : write_file_blocks iter meta.block_count with
    | error e => rw [hwf] at h; exact Except.noConfusion h
    | ok t =>
      obtain ⟨payload, compressed_size, iter2⟩ := t
      rw [hwf] at h
      simp only [] at h
      cases hrec : writeAllFiles properties_byte rest iter2 (out ++ payload) with
      | error e => rw [hrec] at h; exact Except.noConfusion h
      | ok t2 =>
        obtain ⟨outAll, folders2, files2⟩ := t2
        rw [hrec] at h
        simp only [] at h
        cases h
        obtain ⟨h1, h2, h3⟩ := ih iter2 (out ++ payload) _ _ _ hrec
        refine ⟨by simp [h1], by simp [h2], ?_⟩
        intro f hf
        rcases List.mem_cons.mp hf with h4 | h4
        · subst h4; rfl
        · exact h3 f h4

theorem finishModel_ok (compress : List Nat → Except SevenZipError (List Nat))
    (crc32 : List Nat → Nat) (dict_size : Nat)
    (entries : List (String × List Nat)) (block_size : Nat) (r : FinishResult)
    (hok : finishModel compress crc32 dict_size entries block_size = some (.ok r)) :
    ∃ (st : CollectState) (compressed_blocks : List CompressedBlock)
      (packed : List Nat) (folders : List FolderInfo) (files : List FileEntry),
      collectEntries crc32 block_size entries ⟨[], [], []⟩ = some st ∧
      writeAllFiles (encode_properties_byte dict_size) st.file_metas
        compressed_blocks [] = .ok (packed, folders, files) ∧
      r = FinishResult.mk packed folders
        (files ++ st.empty_files.map (fun e => FileEntry.mk e.1 0 0 0 false e.2)) := by
  rw [finishModel] at hok
  cases hcol : collectEntries crc32 block_size entries ⟨[], [], []⟩ with
  | none => rw [hcol] at hok; exact Option.noConfusion hok
  | some st =>
    rw [hcol] at hok
    have hok2 := Option.some.inj hok
    cases hcb : (if st.raw_blocks.isEmpty then (.ok [] : Except SevenZipError _)
        else compress_blocks_parallel compress crc32 st.raw_blocks) with
    | error e => rw [hcb] at hok2; exact Except.noConfusion hok2
    | ok compressed_blocks =>
      rw [hcb] at hok2
      simp only [] at hok2
      cases hwa : writeAllFiles (encode_properties_byte dict_size) st.file_metas
          compressed_blocks [] with
      | error e => rw [hwa] at hok2; exact Except.noConfusion hok2
      | ok t =>
        obtain ⟨packed, folders, files⟩ := t
        rw [hwa] at hok2
        simp only [] at hok2
        injection hok2 with hok3
        exact ⟨st, compressed_blocks, packed, folders, files, rfl, hwa, hok3.symm⟩

/-- C3 counterexample: queueing an empty entry `"a"` before a non-empty
entry `"b"` yields the file table `["b", "a"]` — `finish` moves empty
entries after all non-empty ones, so interleaved queues are not
preserved verbatim. -/
theorem c3_counterexample :
    (∃ r, finishModel (fun d => .ok d) (fun _ => 0) 4096 [("a", []), ("b", [1])] 1 =
        some (.ok r) ∧
      r.files.map FileEntry.name = ["b", "a"]) ∧
    (["b", "a"] : List String) ≠ ["a", "b"] :=
  ⟨⟨FinishResult.mk [1] [FolderInfo.mk 1 1 0 0]
      [FileEntry.mk "b" 1 1 0 true none, FileEntry.mk "a" 0 0 0 false none],
    rfl, rfl⟩, by decide⟩

/-- C3 (amended): after `finish`, the archive's file table lists the
non-empty entries first, in queue order, followed by the empty entries,
in queue order; queue order is preserved within each class but empty
entries are moved after non-empty ones. -/
theorem c3_file_table_order (compress : List Nat → Except SevenZipError (List Nat))
    (crc32 : List Nat → Nat) (dict_size : Nat)
    (entries : List (String × List Nat)) (block_size : Nat) (r : FinishResult)
    (hok : finishModel compress crc32 dict_size entries block_size = some (.ok r)) :
    r.files.map FileEntry.name =
      (entries.filter (fun e => !e.2.isEmpty)).map Prod.fst ++
      (entries.filter (fun e => e.2.isEmpty)).map Prod.fst := by
  obtain ⟨st, cbs, packed, folders, files, hcol, hwa, hr⟩ :=
    finishModel_ok compress crc32 dict_size entries block_size r hok
  obtain ⟨hm, he, _, _⟩ := collectEntries_spec crc32 block_size entries ⟨[], [], []⟩ st hcol
  obtain ⟨hnames, _, _⟩ :=
    writeAllFiles_spec (encode_properties_byte dict_size) st.file_metas cbs [] packed
      folders files hwa
  subst hr
  simp only [List.map_nil, List.nil_append] at hm he
  simp only [List.map_append, List.map_map, hnames, hm]
  congr 1

/-- C3 witness: the amended statement instantiated at one non-empty
entry followed by one empty entry. -/
theorem c3_witness :
    finishModel (fun d => .ok d) (fun _ => 0) 4096 [("a", [1]), ("e", [])] 1 =
      some (.ok (FinishResult.mk [1] [FolderInfo.mk 1 1 0 0]
        [FileEntry.mk "a" 1 1 0 true none, FileEntry.mk "e" 0 0 0 false none])) ∧
    (FinishResult.mk [1] [FolderInfo.mk 1 1 0 0]
        [FileEntry.mk "a" 1 1 0 true none,
         FileEntry.mk "e" 0 0 0 false none]).files.map FileEntry.name =
      (([("a", [1]), ("e", [])] : List (String × List Nat)).filter
        (fun e => !e.2.isEmpty)).map Prod.fst ++
      (([("a", [1]), ("e", [])] : List (String × List Nat)).filter
        (fun e => e.2.isEmpty)).map Prod.fst :=
  ⟨rfl,
    c3_file_table_order (fun d => .ok d) (fun _ => 0) 4096 [("a", [1]), ("e", [])] 1
      (FinishResult.mk [1] [FolderInfo.mk 1 1 0 0]
        [FileEntry.mk "a" 1 1 0 true none, FileEntry.mk "e" 0 0 0 false none]) rfl⟩

/-- C7: every queued empty entry contributes no raw block and no folder,
and its file record has `has_data = false`, uncompressed size 0,
compressed size 0 and CRC 0; every non-empty entry has
`block_count ≥ 1`. Concretely: metas (hence folders) correspond 1-1 to
the non-empty entries, every meta has `block_count ≥ 1`, the raw-block
total is the sum of the metas' block counts, and the records with
`has_data = false` are exactly the empty entries, with zero sizes and
CRC. -/
theorem c7_empty_entries (compress : List Nat → Except SevenZipError (List Nat))
    (crc32 : List Nat → Nat) (dict_size : Nat)
    (entries : List (String × List Nat)) (block_size : Nat) (r : FinishResult)
    (st : CollectState)
    (hcol : collectEntries crc32 block_size entries ⟨[], [], []⟩ = some st)
    (hok : finishModel compress crc32 dict_size entries block_size = some (.ok r)) :
    (∀ m ∈ st.file_metas, 1 ≤ m.block_count) ∧
    st.file_metas.map FileMeta.name =
      (entries.filter (fun e => !e.2.isEmpty)).map Prod.fst ∧
    st.raw_blocks.length = (st.file_metas.map FileMeta.block_count).sum ∧
    r.folders.length = (entries.filter (fun e => !e.2.isEmpty)).length ∧
    (r.files.filter (fun f => !f.has_data)).map FileEntry.name =
      (entries.filter (fun e => e.2.isEmpty)).map Prod.fst ∧
    (∀ f ∈ r.files, f.has_data = false →
      f.uncompressed_size = 0 ∧ f.compressed_size = 0 ∧ f.crc = 0) := by
  obtain ⟨st2, cbs, packed, folders, files, hcol2, hwa, hr⟩ :=
    finishModel_ok compress crc32 dict_size entries block_size r hok
  have hst : st2 = st := Option.some.inj (hcol2.symm.trans hcol)
  subst hst
  obtain ⟨hm, he, hbc, hraw⟩ := collectEntries_spec crc32 block_size entries ⟨[], [], []⟩ st2 hcol
  obtain ⟨hnames, hflen, hdata⟩ :=
    writeAllFiles_spec (encode_properties_byte dict_size) st2.file_metas cbs [] packed
      folders files hwa
  simp only [List.map_nil, List.nil_append] at hm he
  simp only [List.map_nil, List.sum_nil, List.length_nil, Nat.add_zero, Nat.zero_add] at hraw
  subst hr
  refine ⟨?_, hm, hraw, ?_, ?_, ?_⟩
  · intro m hmem
    rcases hbc m hmem with h1 | h1
    · exact absurd h1 (List.not_mem_nil m)
    · exact h1
  · rw [hflen]
    have := congrArg List.length hm
    simpa using this
  · rw [List.filter_append]
    have hfil1 : files.filter (fun f => !f.has_data) = [] := by
      rw [List.filter_eq_nil_iff]
      intro f hf
      simp [hdata f hf]
    have hfil2 : (st2.empty_files.map
        (fun e => FileEntry.mk e.1 0 0 0 false e.2)).filter (fun f => !f.has_data) =
        st2.empty_files.map (fun e => FileEntry.mk e.1 0 0 0 false e.2) := by
      rw [List.filter_eq_self]
      intro f hf
      obtain ⟨e, _, rfl⟩ := List.mem_map.mp hf
      rfl
    rw [hfil1, hfil2, List.nil_append, List.map_map]
    simpa using he
  · intro f hf hfd
    rcases List.mem_append.mp hf with h1 | h1
    · rw [hdata f h1] at hfd
      exact Bool.noConfusion hfd
    · obtain ⟨e, _, rfl⟩ := List.mem_map.mp h1
      exact ⟨rfl, rfl, rfl⟩

/-- C7 witness: the statement instantiated at one non-empty and one
empty entry. -/
theorem c7_witness :
    collectEntries (fun _ => 0) 1 [("a", [1]), ("e", [])] ⟨[], [], []⟩ =
      some (CollectState.mk [FileMeta.mk "a" none 1 0 1] [RawBlock.mk [1] 0]
        [("e", none)]) ∧
    finishModel (fun d => .ok d) (fun _ => 0) 4096 [("a", [1]), ("e", [])] 1 =
      some (.ok (FinishResult.mk [1] [FolderInfo.mk 1 1 0 0]
        [FileEntry.mk "a" 1 1 0 true none, FileEntry.mk "e" 0 0 0 false none])) ∧
    ((∀ m ∈ (CollectState.mk [FileMeta.mk "a" none 1 0 1] [RawBlock.mk [1] 0]
        [("e", none)]).file_metas, 1 ≤ m.block_count) ∧
     (CollectState.mk [FileMeta.mk "a" none 1 0 1] [RawBlock.mk [1] 0]
        [("e", none)]).file_metas.map FileMeta.name =
       (([("a", [1]), ("e", [])] : List (String × List Nat)).filter
         (fun e => !e.2.isEmpty)).map Prod.fst ∧
     (CollectState.mk [FileMeta.mk "a" none 1 0 1] [RawBlock.mk [1] 0]
        [("e", none)]).raw_blocks.length =
       ((CollectState.mk [FileMeta.mk "a" none 1 0 1] [RawBlock.mk [1] 0]
        [("e", none)]).file_metas.map FileMeta.block_count).sum ∧
     (FinishResult.mk [1] [FolderInfo.mk 1 1 0 0]
        [FileEntry.mk "a" 1 1 0 true none,
         FileEntry.mk "e" 0 0 0 false none]).folders.length =
       (([("a", [1]), ("e", [])] : List (String × List Nat)).filter
         (fun e => !e.2.isEmpty)).length ∧
     ((FinishResult.mk [1] [FolderInfo.mk 1 1 0 0]
        [FileEntry.mk "a" 1 1 0 true none,
         FileEntry.mk "e" 0 0 0 false none]).files.filter
           (fun f => !f.has_data)).map FileEntry.name =
       (([("a", [1]), ("e", [])] : List (String × List Nat)).filter
         (fun e => e.2.isEmpty)).map Prod.fst ∧
     (∀ f ∈ (FinishResult.mk [1] [FolderInfo.mk 1 1 0 0]
        [FileEntry.mk "a" 1 1 0 true none,
         FileEntry.mk "e" 0 0 0 false none]).files, f.has_data = false →
       f.uncompressed_size = 0 ∧ f.compressed_size = 0 ∧ f.crc = 0)) :=
  ⟨rfl, rfl,
    c7_empty_entries (fun d => .ok d) (fun _ => 0) 4096 [("a", [1]), ("e", [])] 1
      (FinishResult.mk [1] [FolderInfo.mk 1 1 0 0]
        [FileEntry.mk "a" 1 1 0 true none, FileEntry.mk "e" 0 0 0 false none])
      (CollectState.mk [FileMeta.mk "a" none 1 0 1] [RawBlock.mk [1] 0] [("e", none)])
      rfl rfl⟩

end SevenZipMT
